import Mathlib

/-!
Verification development for the VoxMagic push-to-talk capture pipeline.

The Rust source is shallowly embedded: pure fragments become Lean
functions, the hotkey polling loop becomes an explicit step function over
poll ticks, and the shared mutable `RecordingState` becomes explicit state
passing.  Rust `f64`/`f32` arithmetic in the resampler and the float audio
callback is modelled as exact rational arithmetic (the concrete inputs used
in witnesses and counterexamples are chosen so that the floating-point
computation is exact and agrees with the rational model).  Rust integer
casts that truncate or wrap are modelled explicitly.
-/

/-- Rust `as i16`-style truncation of a rational toward zero
(`f64 as i16` rounds toward zero). -/
def truncQ (q : ℚ) : ℤ :=
  if 0 ≤ q then ⌊q⌋ else ⌈q⌉

/-- Round a rational to the nearest integer (half up); used only to state
the spec's "nearest representable 16-bit value" reading. -/
def roundQ (q : ℚ) : ℤ := ⌊q + 1/2⌋

/-- Rust `f32::clamp(-32768.0, 32767.0)` on the rational model. -/
def clampQ (q : ℚ) : ℚ := max (-32768) (min 32767 q)

/-- Wrap an integer into the `i16` range the way a Rust `as i16` cast on an
integer type does (two's-complement truncation). -/
def wrapI16 (x : ℤ) : ℤ := (x + 32768) % 65536 - 32768

/-!
## Hotkey Monitor (src/app.rs, `VoxMagicApp::new`, spawned thread)

The loop polls `GetAsyncKeyState` every 10 ms, computes `is_pressed`, and
keeps two locals: `was_pressed : bool` and `release_start : Option Instant`.
We embed one loop iteration as `monitor_step`, taking the polled chord
state and the current time in milliseconds, and returning the new locals
together with the list of publications (`store`s to the hotkey slot) made
during that iteration.
-/

/-- A publication to the shared hotkey state slot
(`KEY_STATE_PRESSED` / `KEY_STATE_RELEASED`). -/
inductive HotkeyEvent where
  | pressed
  | released
deriving DecidableEq, Repr

/-- Constant `RELEASE_GRACE_MS` from src/app.rs. -/
def RELEASE_GRACE_MS : ℕ := 250

/-- The monitor thread's loop-local state: `was_pressed` and
`release_start` (the `Instant` is modelled as a time in ms). -/
structure MonitorState where
  was_pressed : Bool
  release_start : Option ℕ
deriving DecidableEq, Repr

/-- The monitor loop state at thread start. -/
def monitorInit : MonitorState := ⟨false, none⟩

/-- One iteration of the hotkey monitor loop body (src/app.rs lines
93-113), given the polled chord state `isPressed` and the current time
`now` in milliseconds.  Returns the updated locals and the publications
made this tick. -/
def monitor_step (s : MonitorState) (isPressed : Bool) (now : ℕ) :
    MonitorState × List HotkeyEvent :=
  if isPressed then
    if s.was_pressed then
      (⟨true, none⟩, [])
    else
      (⟨true, none⟩, [HotkeyEvent.pressed])
  else if s.was_pressed then
    let start := s.release_start.getD now
    if RELEASE_GRACE_MS ≤ now - start then
      (⟨false, none⟩, [HotkeyEvent.released])
    else
      (⟨true, some start⟩, [])
  else
    (s, [])

/-- Run the monitor loop over a list of polled chord states, one tick
every 10 ms starting at time `t`.  Collects all publications in order. -/
def monitor_run (s : MonitorState) (inputs : List Bool) (t : ℕ) :
    MonitorState × List HotkeyEvent :=
  match inputs with
  | [] => (s, [])
  | b :: bs =>
      let step := monitor_step s b t
      let rest := monitor_run step.1 bs (t + 10)
      (rest.1, step.2 ++ rest.2)

theorem monitor_run_nil (s : MonitorState) (t : ℕ) :
    monitor_run s [] t = (s, []) := rfl

theorem monitor_run_cons (s : MonitorState) (b : Bool) (bs : List Bool) (t : ℕ) :
    monitor_run s (b :: bs) t =
      ((monitor_run (monitor_step s b t).1 bs (t + 10)).1,
        (monitor_step s b t).2 ++ (monitor_run (monitor_step s b t).1 bs (t + 10)).2) :=
  rfl

theorem monitor_step_rise (s₀ : Option ℕ) (now : ℕ) :
    monitor_step ⟨false, s₀⟩ true now = (⟨true, none⟩, [HotkeyEvent.pressed]) := by
  simp [monitor_step]

theorem monitor_step_hold (s₀ : Option ℕ) (now : ℕ) :
    monitor_step ⟨true, s₀⟩ true now = (⟨true, none⟩, []) := by
  simp [monitor_step]

theorem monitor_step_release_first (now : ℕ) :
    monitor_step ⟨true, none⟩ false now = (⟨true, some now⟩, []) := by
  simp [monitor_step, RELEASE_GRACE_MS]

theorem monitor_step_release_tick (s₀ now : ℕ) (h : now - s₀ < 250) :
    monitor_step ⟨true, some s₀⟩ false now = (⟨true, some s₀⟩, []) := by
  simp [monitor_step, RELEASE_GRACE_MS, Nat.not_le.mpr h]

theorem monitor_step_release_fire (s₀ now : ℕ) (h : 250 ≤ now - s₀) :
    monitor_step ⟨true, some s₀⟩ false now = (⟨false, none⟩, [HotkeyEvent.released]) := by
  simp [monitor_step, RELEASE_GRACE_MS, h]

theorem monitor_run_append (s : MonitorState) (xs ys : List Bool) (t : ℕ) :
    monitor_run s (xs ++ ys) t =
      ((monitor_run (monitor_run s xs t).1 ys (t + 10 * xs.length)).1,
        (monitor_run s xs t).2 ++
          (monitor_run (monitor_run s xs t).1 ys (t + 10 * xs.length)).2) := by
  induction xs generalizing s t with
  | nil => simp [monitor_run_nil]
  | cons b bs ih =>
      rw [List.cons_append, monitor_run_cons s b (bs ++ ys) t,
        monitor_run_cons s b bs t, ih]
      have ht : t + 10 + 10 * bs.length = t + 10 * (b :: bs).length := by
        simp [List.length_cons]; ring
      rw [ht, List.append_assoc]

/-- While the chord stays down and `was_pressed` is already true, no
publication happens and the locals are unchanged. -/
theorem monitor_run_held (q t : ℕ) :
    monitor_run ⟨true, none⟩ (List.replicate q true) t = (⟨true, none⟩, []) := by
  induction q generalizing t with
  | zero => simp [monitor_run]
  | succ n ih => simp [monitor_run, monitor_step, ih]

/-- Once `was_pressed` is false with no pending grace timer, released
ticks do nothing. -/
theorem monitor_run_idle (r t : ℕ) :
    monitor_run ⟨false, none⟩ (List.replicate r false) t = (⟨false, none⟩, []) := by
  induction r generalizing t with
  | zero => simp [monitor_run]
  | succ n ih => simp [monitor_run, monitor_step, ih]

/-- Released ticks with a pending grace timer that started at `s₀`,
polled at time `s₀ + 10 * c` with `c ≤ 25`: the `Released` publication
happens exactly when the run reaches the tick 250 ms after the timer
started, i.e. when `26 ≤ r + c`. -/
theorem monitor_run_grace (r : ℕ) :
    ∀ s₀ c, c ≤ 25 →
    monitor_run ⟨true, some s₀⟩ (List.replicate r false) (s₀ + 10 * c) =
      if 26 ≤ r + c then (⟨false, none⟩, [HotkeyEvent.released])
      else (⟨true, some s₀⟩, []) := by
  induction r with
  | zero =>
      intro s₀ c hc
      rw [List.replicate_zero, monitor_run_nil, if_neg (by omega)]
  | succ n ih =>
      intro s₀ c hc
      rw [List.replicate_succ, monitor_run_cons]
      rcases Nat.lt_or_ge c 25 with hlt | hge
      · rw [monitor_step_release_tick s₀ _ (by omega)]
        have ht : s₀ + 10 * c + 10 = s₀ + 10 * (c + 1) := by ring
        rw [ht, ih s₀ (c + 1) (by omega)]
        by_cases h26 : 26 ≤ n + (c + 1)
        · rw [if_pos h26, if_pos (by omega)]
          simp
        · rw [if_neg h26, if_neg (by omega)]
          simp
      · have hc25 : c = 25 := by omega
        subst hc25
        rw [monitor_step_release_fire s₀ _ (by omega)]
        rw [monitor_run_idle, if_pos (by omega)]
        simp

/-- A run of `p ≥ 1` pressed ticks from the initial state publishes exactly
one `Pressed`. -/
theorem monitor_run_press (p t : ℕ) (hp : 1 ≤ p) :
    monitor_run monitorInit (List.replicate p true) t
      = (⟨true, none⟩, [HotkeyEvent.pressed]) := by
  obtain ⟨m, rfl⟩ : ∃ m, p = m + 1 := ⟨p - 1, by omega⟩
  show monitor_run ⟨false, none⟩ _ _ = _
  rw [List.replicate_succ, monitor_run_cons, monitor_step_rise, monitor_run_held]
  simp

/-- A run of `r` released ticks starting with the chord held
(`was_pressed = true`, no pending grace timer): `Released` is published iff
the release spans at least 26 ticks (≥ 250 ms between the first and last
release poll). -/
theorem monitor_run_release (r t : ℕ) :
    monitor_run ⟨true, none⟩ (List.replicate r false) t
      = if 26 ≤ r then (⟨false, none⟩, [HotkeyEvent.released])
        else if 1 ≤ r then (⟨true, some t⟩, []) else (⟨true, none⟩, []) := by
  cases r with
  | zero => rw [List.replicate_zero, monitor_run_nil]; simp
  | succ n =>
      rw [List.replicate_succ, monitor_run_cons, monitor_step_release_first]
      have ht : t + 10 = t + 10 * 1 := by ring
      rw [ht, monitor_run_grace n t 1 (by omega)]
      by_cases h26 : 26 ≤ n + 1
      · rw [if_pos h26, if_pos (by omega)]; simp
      · rw [if_neg h26, if_neg (by omega), if_pos (by omega)]; simp

/-- Pressed ticks while `was_pressed` is already true publish nothing,
whatever the pending grace timer was (a re-press cancels it). -/
theorem monitor_run_held_any (s₀ : Option ℕ) (q t : ℕ) :
    (monitor_run ⟨true, s₀⟩ (List.replicate q true) t).2 = [] := by
  cases q with
  | zero => rfl
  | succ n =>
      rw [List.replicate_succ, monitor_run_cons, monitor_step_hold,
        monitor_run_held]
      simp

/-- C1: over the 10 ms poll ticks of the Hotkey Monitor loop, a rising edge
of the chord (`p ≥ 1` pressed ticks from idle) followed by the chord staying
continuously released for at least 250 ms (`r ≥ 26` release ticks, i.e.
≥ 250 ms elapsed since the first release poll) publishes exactly one
`Pressed` followed by exactly one `Released`; if the chord is pressed again
before 250 ms of continuous release have elapsed (`r ≤ 25` release ticks,
i.e. ≤ 240 ms), no `Released` is published for that falling edge. -/
theorem hotkey_monitor_press_release_spec (p r q : ℕ) (hp : 1 ≤ p) :
    (26 ≤ r →
      (monitor_run monitorInit (List.replicate p true ++ List.replicate r false) 0).2
        = [HotkeyEvent.pressed, HotkeyEvent.released])
    ∧ (r ≤ 25 →
      (monitor_run monitorInit
          (List.replicate p true ++ List.replicate r false ++ List.replicate q true) 0).2
        = [HotkeyEvent.pressed]) := by
  have h1 := monitor_run_press p 0 hp
  constructor
  · intro hr
    simp [monitor_run_append, h1, monitor_run_release, hr]
  · intro hr
    have hr26 : ¬ 26 ≤ r := by omega
    by_cases h1r : 1 ≤ r
    · simp [monitor_run_append, h1, monitor_run_release, hr26, h1r,
        monitor_run_held_any]
    · have hr0 : r = 0 := by omega
      subst hr0
      have h2 := monitor_run_press (p + q) 0 (by omega)
      simp [monitor_run_append, h1, monitor_run_release, monitor_run_held_any, h2]

/-- Witness for C1 at `p = 1, r = 26` and `p = 1, r = 5, q = 3`. -/
theorem hotkey_monitor_press_release_spec_witness :
    (monitor_run monitorInit
        (List.replicate 1 true ++ List.replicate 26 false) 0).2
      = [HotkeyEvent.pressed, HotkeyEvent.released]
    ∧ (monitor_run monitorInit
        (List.replicate 1 true ++ List.replicate 5 false ++ List.replicate 3 true) 0).2
      = [HotkeyEvent.pressed] :=
  ⟨(hotkey_monitor_press_release_spec 1 26 0 (by decide)).1 (by decide),
    (hotkey_monitor_press_release_spec 1 5 3 (by decide)).2 (by decide)⟩

/-!
## Signal Processor (src/audio.rs, `downsample` and `encode_wav`)

The Rust `downsample` works in `f64`; we embed it in exact rational
arithmetic.  Rust float-to-integer `as` casts truncate toward zero and
saturate, which we model explicitly.
-/

/-- Rust `f64 as i16`: saturating truncation toward zero. -/
def f64_as_i16 (q : ℚ) : ℤ := max (-32768) (min 32767 (truncQ q))

/-- The source line `let ratio = from as f64 / to as f64` (src/audio.rs line 252). -/
def dsRatio (fromRate toRate : ℕ) : ℚ := (fromRate : ℚ) / (toRate : ℚ)

/-- The source line `let target_len = (samples.len() as f64 / ratio) as usize`
(src/audio.rs line 253; the value is nonnegative, so the cast is a
floor). -/
def dsTargetLen (n fromRate toRate : ℕ) : ℕ :=
  ⌊(n : ℚ) / dsRatio fromRate toRate⌋.toNat

/-- The body of the `for i in 0..target_len` loop of `downsample`
(src/audio.rs lines 256-270): `none` models an iteration that pushes
nothing. -/
def dsEntry (samples : List ℤ) (fromRate toRate : ℕ) (i : ℕ) : Option ℤ :=
  let pos : ℚ := (i : ℚ) * dsRatio fromRate toRate
  let index : ℕ := ⌊pos⌋.toNat
  if index + 1 < samples.length then
    let fract : ℚ := pos - (index : ℚ)
    let s1 : ℚ := (samples.getD index 0 : ℤ)
    let s2 : ℚ := (samples.getD (index + 1) 0 : ℤ)
    some (f64_as_i16 (s1 + (s2 - s1) * fract))
  else if index < samples.length then
    some (samples.getD index 0)
  else
    none

/-- Function `downsample` (src/audio.rs lines 247-273). -/
def downsample (samples : List ℤ) (fromRate toRate : ℕ) : List ℤ :=
  if fromRate = toRate then samples
  else
    (List.range (dsTargetLen samples.length fromRate toRate)).filterMap
      (dsEntry samples fromRate toRate)

/-- The loop body's value when the source index is in bounds (merging the
two pushing branches). -/
def dsVal (samples : List ℤ) (fromRate toRate : ℕ) (i : ℕ) : ℤ :=
  let pos : ℚ := (i : ℚ) * dsRatio fromRate toRate
  let index : ℕ := ⌊pos⌋.toNat
  if index + 1 < samples.length then
    let fract : ℚ := pos - (index : ℚ)
    let s1 : ℚ := (samples.getD index 0 : ℤ)
    let s2 : ℚ := (samples.getD (index + 1) 0 : ℤ)
    f64_as_i16 (s1 + (s2 - s1) * fract)
  else
    samples.getD index 0

/-- What C2 literally asserts for output index `i`: linear interpolation
between the bracketing samples at `⌊i·R/16000⌋` and `⌊i·R/16000⌋ + 1`
weighted by the fractional part, quantized to the NEAREST representable
16-bit value; the left neighbor copied when no right-hand neighbor
exists. -/
def nearestSampleAt (samples : List ℤ) (r : ℕ) (i : ℕ) : ℤ :=
  let pos : ℚ := (i : ℚ) * (r : ℚ) / 16000
  let index : ℕ := ⌊pos⌋.toNat
  if index + 1 < samples.length then
    let fract : ℚ := pos - (index : ℚ)
    let s1 : ℚ := (samples.getD index 0 : ℤ)
    let s2 : ℚ := (samples.getD (index + 1) 0 : ℤ)
    roundQ (s1 + (s2 - s1) * fract)
  else
    samples.getD index 0

/-- The amended C2 formula: same interpolation, but quantized by the
saturating truncation toward zero that Rust's `as i16` performs. -/
def truncSampleAt (samples : List ℤ) (r : ℕ) (i : ℕ) : ℤ :=
  let pos : ℚ := (i : ℚ) * (r : ℚ) / 16000
  let index : ℕ := ⌊pos⌋.toNat
  if index + 1 < samples.length then
    let fract : ℚ := pos - (index : ℚ)
    let s1 : ℚ := (samples.getD index 0 : ℤ)
    let s2 : ℚ := (samples.getD (index + 1) 0 : ℤ)
    f64_as_i16 (s1 + (s2 - s1) * fract)
  else
    samples.getD index 0

theorem dsTargetLen_eq (n fromR toR : ℕ) :
    dsTargetLen n fromR toR = n * toR / fromR := by
  unfold dsTargetLen dsRatio
  rw [div_div_eq_mul_div, Int.floor_toNat]
  rw [show ((n : ℚ) * toR) = (((n * toR : ℕ) : ℚ)) by push_cast; ring]
  rw [Nat.floor_div_nat, Nat.floor_natCast]

theorem dsIndex_lt (n fromR toR i : ℕ) (hf : 0 < fromR) (ht : 0 < toR)
    (hi : i < dsTargetLen n fromR toR) :
    ⌊(i : ℚ) * dsRatio fromR toR⌋.toNat < n := by
  have hratio : 0 < dsRatio fromR toR := by
    unfold dsRatio
    positivity
  have h1 : (i : ℚ) < (n : ℚ) / dsRatio fromR toR := by
    unfold dsTargetLen at hi
    have h2 : (i : ℤ) < ⌊(n : ℚ) / dsRatio fromR toR⌋ := Int.lt_toNat.mp hi
    have h3 : ((i : ℤ) + 1 : ℚ) ≤ (n : ℚ) / dsRatio fromR toR := by
      exact_mod_cast Int.le_floor.mp h2
    push_cast at h3
    linarith
  have hpos : (i : ℚ) * dsRatio fromR toR < n := (lt_div_iff₀ hratio).mp h1
  have hnn : (0 : ℚ) ≤ (i : ℚ) * dsRatio fromR toR := by positivity
  have h4 : (⌊(i : ℚ) * dsRatio fromR toR⌋ : ℚ) ≤ (i : ℚ) * dsRatio fromR toR :=
    Int.floor_le _
  have h5 : (⌊(i : ℚ) * dsRatio fromR toR⌋ : ℚ) < (n : ℚ) := lt_of_le_of_lt h4 hpos
  have h6 : ⌊(i : ℚ) * dsRatio fromR toR⌋ < (n : ℤ) := by exact_mod_cast h5
  have h7 : 0 ≤ ⌊(i : ℚ) * dsRatio fromR toR⌋ := Int.floor_nonneg.mpr hnn
  omega

theorem dsEntry_eq_some (samples : List ℤ) (fromR toR i : ℕ)
    (hidx : ⌊(i : ℚ) * dsRatio fromR toR⌋.toNat < samples.length) :
    dsEntry samples fromR toR i = some (dsVal samples fromR toR i) := by
  unfold dsEntry dsVal
  by_cases h : ⌊(i : ℚ) * dsRatio fromR toR⌋.toNat + 1 < samples.length
  · simp only [h, if_true]
  · simp only [h, if_false, hidx, if_true]

theorem downsample_eq_map (samples : List ℤ) (fromR toR : ℕ)
    (hne : fromR ≠ toR) (hf : 0 < fromR) (ht : 0 < toR) :
    downsample samples fromR toR =
      (List.range (dsTargetLen samples.length fromR toR)).map
        (dsVal samples fromR toR) := by
  unfold downsample
  rw [if_neg hne]
  have hcongr :
      (List.range (dsTargetLen samples.length fromR toR)).filterMap
          (dsEntry samples fromR toR)
        = (List.range (dsTargetLen samples.length fromR toR)).filterMap
          (some ∘ dsVal samples fromR toR) := by
    apply List.filterMap_congr
    intro i hi
    exact dsEntry_eq_some samples fromR toR i
      (dsIndex_lt samples.length fromR toR i hf ht (List.mem_range.mp hi))
  rw [hcongr, List.filterMap_eq_map]

theorem downsample_length_eq (samples : List ℤ) (fromR toR : ℕ)
    (hf : 0 < fromR) (ht : 0 < toR) :
    (downsample samples fromR toR).length = samples.length * toR / fromR := by
  by_cases h : fromR = toR
  · subst h
    unfold downsample
    rw [if_pos rfl, Nat.mul_div_cancel _ hf]
  · rw [downsample_eq_map samples fromR toR h hf ht, List.length_map,
      List.length_range, dsTargetLen_eq]

/-- C2 counterexample: at input `[5, 0, 3]` with native rate 20000 Hz, the
interpolated value at output index 1 is 3/4 (position 5/4, weight 1/4
between samples 0 and 3).  The code truncates it to 0, whereas quantizing
to the nearest representable 16-bit value yields 1, so the claim as stated
fails at this input. -/
theorem downsample_nearest_quantization_counterexample :
    ¬ ((downsample [5, 0, 3] 20000 16000).getD 1 0
        = nearestSampleAt [5, 0, 3] 20000 1) := by
  have hlen : 1 < (downsample [5, 0, 3] 20000 16000).length := by
    rw [downsample_length_eq _ _ _ (by norm_num) (by norm_num)]
    decide
  have h1 : (downsample [5, 0, 3] 20000 16000).getD 1 0 = 0 := by
    rw [downsample_eq_map _ _ _ (by norm_num) (by norm_num) (by norm_num)] at hlen ⊢
    rw [List.getD_eq_getElem _ _ hlen, List.getElem_map, List.getElem_range]
    norm_num [dsVal, dsRatio, f64_as_i16, truncQ]
  have h2 : nearestSampleAt [5, 0, 3] 20000 1 = 1 := by
    norm_num [nearestSampleAt, roundQ]
  rw [h1, h2]
  decide

/-- C2 (amended): for every input sample sequence and positive native rate
R ≠ 16000, each output sample at index i of the resampler is obtained by
linearly interpolating between the two bracketing input samples at
⌊i·R/16000⌋ and ⌊i·R/16000⌋+1, weighted by the fractional part of
i·R/16000, and quantizing the interpolated value by SATURATING TRUNCATION
TOWARD ZERO (Rust `as i16`), not to the nearest representable value; when
no right-hand neighbor exists, the left neighbor is copied directly. -/
theorem downsample_sample_formula (samples : List ℤ) (r : ℕ)
    (hne : r ≠ 16000) (hr : 0 < r) :
    ∀ i, i < (downsample samples r 16000).length →
      (downsample samples r 16000).getD i 0 = truncSampleAt samples r i := by
  intro i hi
  rw [downsample_eq_map samples r 16000 hne hr (by norm_num)] at hi ⊢
  rw [List.getD_eq_getElem _ _ hi, List.getElem_map, List.getElem_range]
  unfold dsVal truncSampleAt dsRatio
  rw [mul_div_assoc]
  norm_num

/-- Witness for the amended C2 at input `[5, 0, 3]`, rate 20000, index 1. -/
theorem downsample_sample_formula_witness :
    (downsample [5, 0, 3] 20000 16000).getD 1 0 = truncSampleAt [5, 0, 3] 20000 1 :=
  downsample_sample_formula [5, 0, 3] 20000 (by decide) (by decide) 1
    (by rw [downsample_length_eq _ _ _ (by norm_num) (by norm_num)]; decide)

/-- C3: resampling is the identity when the native rate already is
16000 Hz, and for every positive native rate R the output length is within
±1 of ⌊input_length · 16000 / R⌋ (it is in fact exactly equal). -/
theorem downsample_identity_and_length (samples : List ℤ) (r : ℕ) (hr : 0 < r) :
    downsample samples 16000 16000 = samples
    ∧ (((downsample samples r 16000).length : ℤ)
        - ((samples.length * 16000 / r : ℕ) : ℤ)).natAbs ≤ 1 := by
  constructor
  · unfold downsample
    rw [if_pos rfl]
  · rw [downsample_length_eq samples r 16000 hr (by norm_num)]
    simp

/-- Witness for C3 at input `[1, 2, 3]`, native rate 44100. -/
theorem downsample_identity_and_length_witness :
    downsample [1, 2, 3] 16000 16000 = [1, 2, 3]
    ∧ (((downsample [1, 2, 3] 44100 16000).length : ℤ)
        - (((3 : ℕ) * 16000 / 44100 : ℕ) : ℤ)).natAbs ≤ 1 := by
  have h := downsample_identity_and_length [1, 2, 3] 44100 (by decide)
  simpa using h

/-!
## WAV container (src/audio.rs `encode_wav`, src/config.rs constants)

`encode_wav` serializes the (possibly resampled) samples through the
external `hound` crate with `WavSpec { channels: CHANNELS, sample_rate:
16000, bits_per_sample: BITS_PER_SAMPLE, sample_format: Int }`.
-/

/-- Constant `CHANNELS` from src/config.rs. -/
def CHANNELS : ℕ := 1

/-- Constant `BITS_PER_SAMPLE` from src/config.rs. -/
def BITS_PER_SAMPLE : ℕ := 16

/-- A 16-bit little-endian unsigned field. -/
def u16le (x : ℕ) : List ℕ := [x % 256, x / 256 % 256]

/-- A 32-bit little-endian unsigned field. -/
def u32le (x : ℕ) : List ℕ :=
  [x % 256, x / 256 % 256, x / 65536 % 256, x / 16777216 % 256]

/-- A 16-bit signed PCM sample as two little-endian bytes
(two's complement). -/
def i16le (s : ℤ) : List ℕ := u16le (s % 65536).toNat

/-- Modelled from the spec: the WAV writer used by `encode_wav` is the
external `hound` crate, whose sources are not part of this repository, so
the byte layout is modelled from the spec's required "standard RIFF/WAVE
header: mono, 16-bit signed PCM, sample rate fixed at 16000 Hz" — the
canonical 44-byte PCM WAV header (RIFF chunk size, `fmt ` chunk of size 16
with audio format 1 = integer PCM, `CHANNELS` channels, 16000 Hz sample
rate, byte rate, block align, `BITS_PER_SAMPLE` bits) followed by the
`data` chunk. -/
def wavHeader (dataSize : ℕ) : List ℕ :=
  [82, 73, 70, 70] ++ u32le (36 + dataSize) ++ [87, 65, 86, 69]
    ++ [102, 109, 116, 32] ++ u32le 16 ++ u16le 1 ++ u16le CHANNELS
    ++ u32le 16000 ++ u32le (16000 * CHANNELS * (BITS_PER_SAMPLE / 8))
    ++ u16le (CHANNELS * (BITS_PER_SAMPLE / 8)) ++ u16le BITS_PER_SAMPLE
    ++ [100, 97, 116, 97] ++ u32le dataSize

/-- The WAV byte sequence produced for a 16-bit mono sample list at
16000 Hz (the serialization step of `encode_wav`). -/
def encode_wav_bytes (samples : List ℤ) : List ℕ :=
  wavHeader (2 * samples.length) ++ (samples.map i16le).flatten

/-- Function `encode_wav` (src/audio.rs lines 212-245): resample to the fixed
16000 Hz target when the native rate differs, then serialize. -/
def encode_wav (samples : List ℤ) (original_sample_rate : ℕ) : List ℕ :=
  encode_wav_bytes
    (if original_sample_rate ≠ 16000
      then downsample samples original_sample_rate 16000
      else samples)

/-- Read a little-endian unsigned field. -/
def byteSeqToNat (l : List ℕ) : ℕ := l.foldr (fun b acc => b % 256 + 256 * acc) 0

/-- Decode one two's-complement 16-bit little-endian sample. -/
def decode_i16 (lo hi : ℕ) : ℤ :=
  if lo % 256 + 256 * (hi % 256) < 32768 then ((lo % 256 + 256 * (hi % 256) : ℕ) : ℤ)
  else ((lo % 256 + 256 * (hi % 256) : ℕ) : ℤ) - 65536

/-- Decode the data chunk two bytes per sample; `none` on a dangling
byte. -/
def decodePairs : List ℕ → Option (List ℤ)
  | [] => some []
  | [_] => none
  | lo :: hi :: rest => (decodePairs rest).map (fun l => decode_i16 lo hi :: l)

/-- Conformance check for the container produced by the Signal Processor:
RIFF/WAVE magic, a 16-byte `fmt ` chunk declaring integer PCM (format 1),
exactly one channel, 16000 Hz, byte rate 32000, block align 2, 16 bits per
sample, and consistent chunk sizes. -/
def wavConformant (bytes : List ℕ) : Bool :=
  bytes.take 4 == [82, 73, 70, 70]
    && byteSeqToNat ((bytes.drop 4).take 4) == 36 + (bytes.drop 44).length
    && (bytes.drop 8).take 4 == [87, 65, 86, 69]
    && (bytes.drop 12).take 4 == [102, 109, 116, 32]
    && byteSeqToNat ((bytes.drop 16).take 4) == 16
    && byteSeqToNat ((bytes.drop 20).take 2) == 1
    && byteSeqToNat ((bytes.drop 22).take 2) == 1
    && byteSeqToNat ((bytes.drop 24).take 4) == 16000
    && byteSeqToNat ((bytes.drop 28).take 4) == 32000
    && byteSeqToNat ((bytes.drop 32).take 2) == 2
    && byteSeqToNat ((bytes.drop 34).take 2) == 16
    && (bytes.drop 36).take 4 == [100, 97, 116, 97]
    && byteSeqToNat ((bytes.drop 40).take 4) == (bytes.drop 44).length

/-- Decode a conformant WAV byte sequence back to its samples; `none` if
the container is not a conformant mono 16-bit 16000 Hz PCM WAV. -/
def decode_wav_bytes (bytes : List ℕ) : Option (List ℤ) :=
  if wavConformant bytes then decodePairs (bytes.drop 44) else none

theorem wavHeader_eq (d : ℕ) : wavHeader d =
    [82, 73, 70, 70,
     (36 + d) % 256, (36 + d) / 256 % 256, (36 + d) / 65536 % 256,
     (36 + d) / 16777216 % 256,
     87, 65, 86, 69, 102, 109, 116, 32,
     16, 0, 0, 0, 1, 0, 1, 0,
     128, 62, 0, 0, 0, 125, 0, 0,
     2, 0, 16, 0,
     100, 97, 116, 97,
     d % 256, d / 256 % 256, d / 65536 % 256, d / 16777216 % 256] := by
  simp [wavHeader, u32le, u16le, CHANNELS, BITS_PER_SAMPLE]

theorem sum_len_i16le (samples : List ℤ) :
    (List.map (List.length ∘ i16le) samples).sum = 2 * samples.length := by
  induction samples with
  | nil => simp
  | cons s rest ih =>
      simp [i16le, u16le, ih]
      ring

theorem encode_drop44 (samples : List ℤ) :
    (encode_wav_bytes samples).drop 44 = (samples.map i16le).flatten := by
  simp [encode_wav_bytes, wavHeader_eq]

theorem encode_drop44_length (samples : List ℤ) :
    ((encode_wav_bytes samples).drop 44).length = 2 * samples.length := by
  rw [encode_drop44]
  simp [sum_len_i16le]

theorem decode_i16_i16le (s : ℤ) (h1 : -32768 ≤ s) (h2 : s ≤ 32767) :
    decode_i16 ((s % 65536).toNat % 256) ((s % 65536).toNat / 256 % 256) = s := by
  unfold decode_i16
  split <;> omega

theorem decodePairs_flatten (samples : List ℤ)
    (hrange : ∀ s ∈ samples, -32768 ≤ s ∧ s ≤ 32767) :
    decodePairs ((samples.map i16le).flatten) = some samples := by
  induction samples with
  | nil => simp [decodePairs]
  | cons s rest ih =>
      have hs := hrange s (by simp)
      have hrest : ∀ x ∈ rest, -32768 ≤ x ∧ x ≤ 32767 := fun x hx =>
        hrange x (by simp [hx])
      simp only [List.map_cons, List.flatten_cons]
      have hsplit : i16le s ++ (List.map i16le rest).flatten
          = ((s % 65536).toNat % 256) :: ((s % 65536).toNat / 256 % 256)
            :: (List.map i16le rest).flatten := by
        simp [i16le, u16le]
      rw [hsplit]
      simp only [decodePairs]
      rw [ih hrest]
      simp [decode_i16_i16le s hs.1 hs.2]

theorem wavConformant_encode (samples : List ℤ)
    (hlen : samples.length < 2 ^ 30) :
    wavConformant (encode_wav_bytes samples) = true := by
  have hd := encode_drop44_length samples
  have h4 : ((encode_wav_bytes samples).drop 4).take 4
      = [(36 + 2 * samples.length) % 256, (36 + 2 * samples.length) / 256 % 256,
         (36 + 2 * samples.length) / 65536 % 256,
         (36 + 2 * samples.length) / 16777216 % 256] := by
    simp [encode_wav_bytes, wavHeader_eq]
  have h40 : ((encode_wav_bytes samples).drop 40).take 4
      = [(2 * samples.length) % 256, (2 * samples.length) / 256 % 256,
         (2 * samples.length) / 65536 % 256,
         (2 * samples.length) / 16777216 % 256] := by
    simp [encode_wav_bytes, wavHeader_eq]
  have h16 : ((encode_wav_bytes samples).drop 16).take 4 = [16, 0, 0, 0] := by
    simp [encode_wav_bytes, wavHeader_eq]
  have h20 : ((encode_wav_bytes samples).drop 20).take 2 = [1, 0] := by
    simp [encode_wav_bytes, wavHeader_eq]
  have h22 : ((encode_wav_bytes samples).drop 22).take 2 = [1, 0] := by
    simp [encode_wav_bytes, wavHeader_eq]
  have h24 : ((encode_wav_bytes samples).drop 24).take 4 = [128, 62, 0, 0] := by
    simp [encode_wav_bytes, wavHeader_eq]
  have h28 : ((encode_wav_bytes samples).drop 28).take 4 = [0, 125, 0, 0] := by
    simp [encode_wav_bytes, wavHeader_eq]
  have h32 : ((encode_wav_bytes samples).drop 32).take 2 = [2, 0] := by
    simp [encode_wav_bytes, wavHeader_eq]
  have h34 : ((encode_wav_bytes samples).drop 34).take 2 = [16, 0] := by
    simp [encode_wav_bytes, wavHeader_eq]
  have h0 : (encode_wav_bytes samples).take 4 = [82, 73, 70, 70] := by
    simp [encode_wav_bytes, wavHeader_eq]
  have h8 : ((encode_wav_bytes samples).drop 8).take 4 = [87, 65, 86, 69] := by
    simp [encode_wav_bytes, wavHeader_eq]
  have h12 : ((encode_wav_bytes samples).drop 12).take 4 = [102, 109, 116, 32] := by
    simp [encode_wav_bytes, wavHeader_eq]
  have h36 : ((encode_wav_bytes samples).drop 36).take 4 = [100, 97, 116, 97] := by
    simp [encode_wav_bytes, wavHeader_eq]
  unfold wavConformant
  rw [h0, h4, h8, h12, h16, h20, h22, h24, h28, h32, h34, h36, h40, hd]
  simp only [Bool.and_eq_true, beq_iff_eq]
  simp [byteSeqToNat]
  omega

/-- C4: encoding a 16-bit mono sample sequence produces a conformant
RIFF/WAVE container declaring integer PCM (format 1), `CHANNELS` = one
channel, `BITS_PER_SAMPLE` = 16 bits, and a 16000 Hz sample rate, and
decoding that container returns the original sample values exactly.  (The
decoder returns `none` on any non-conformant container, so a successful
round-trip also certifies conformance.) -/
theorem encode_wav_roundtrip_and_header (samples : List ℤ)
    (hrange : ∀ s ∈ samples, -32768 ≤ s ∧ s ≤ 32767)
    (hlen : samples.length < 2 ^ 30) :
    decode_wav_bytes (encode_wav_bytes samples) = some samples
    ∧ wavConformant (encode_wav_bytes samples) = true
    ∧ byteSeqToNat (((encode_wav_bytes samples).drop 20).take 2) = 1
    ∧ byteSeqToNat (((encode_wav_bytes samples).drop 22).take 2) = CHANNELS
    ∧ byteSeqToNat (((encode_wav_bytes samples).drop 24).take 4) = 16000
    ∧ byteSeqToNat (((encode_wav_bytes samples).drop 34).take 2) = BITS_PER_SAMPLE := by
  have hconf := wavConformant_encode samples hlen
  refine ⟨?_, hconf, ?_, ?_, ?_, ?_⟩
  · unfold decode_wav_bytes
    rw [hconf, if_pos rfl, encode_drop44]
    exact decodePairs_flatten samples hrange
  · have h20 : ((encode_wav_bytes samples).drop 20).take 2 = [1, 0] := by
      simp [encode_wav_bytes, wavHeader_eq]
    rw [h20]
    simp [byteSeqToNat]
  · have h22 : ((encode_wav_bytes samples).drop 22).take 2 = [1, 0] := by
      simp [encode_wav_bytes, wavHeader_eq]
    rw [h22]
    simp [byteSeqToNat, CHANNELS]
  · have h24 : ((encode_wav_bytes samples).drop 24).take 4 = [128, 62, 0, 0] := by
      simp [encode_wav_bytes, wavHeader_eq]
    rw [h24]
    simp [byteSeqToNat]
  · have h34 : ((encode_wav_bytes samples).drop 34).take 2 = [16, 0] := by
      simp [encode_wav_bytes, wavHeader_eq]
    rw [h34]
    simp [byteSeqToNat, BITS_PER_SAMPLE]

/-- Witness for C4 at the sample list `[1, -1, 32767, -32768, 0]`. -/
theorem encode_wav_roundtrip_and_header_witness :
    decode_wav_bytes (encode_wav_bytes [1, -1, 32767, -32768, 0])
        = some [1, -1, 32767, -32768, 0]
    ∧ wavConformant (encode_wav_bytes [1, -1, 32767, -32768, 0]) = true
    ∧ byteSeqToNat (((encode_wav_bytes [1, -1, 32767, -32768, 0]).drop 20).take 2) = 1
    ∧ byteSeqToNat (((encode_wav_bytes [1, -1, 32767, -32768, 0]).drop 22).take 2) = CHANNELS
    ∧ byteSeqToNat (((encode_wav_bytes [1, -1, 32767, -32768, 0]).drop 24).take 4) = 16000
    ∧ byteSeqToNat (((encode_wav_bytes [1, -1, 32767, -32768, 0]).drop 34).take 2)
        = BITS_PER_SAMPLE :=
  encode_wav_roundtrip_and_header [1, -1, 32767, -32768, 0]
    (by decide) (by norm_num)

/-!
## Capture Engine (src/audio.rs `RecordingState`, `start_recording`,
`stop_recording`)

The shared mutable `RecordingState` (atomics plus a locked sample buffer)
becomes an explicit record; each Rust function returns its result paired
with the state after the call.  The default input device is modelled as an
`Option DeviceConfig` (`none` = no device); stream construction and
playback are modelled as succeeding for the two supported sample formats.
-/

/-- Error type `AudioError` (src/audio.rs lines 13-27). -/
inductive AudioError where
  | noInputDevice
  | configError (msg : String)
  | streamError (msg : String)
  | encodingError (msg : String)
  | alreadyRecording
  | notRecording
deriving DecidableEq, Repr

/-- The cpal sample formats distinguished by `start_recording`. -/
inductive SampleFormat where
  | i16
  | f32
  | other (desc : String)
deriving DecidableEq, Repr

/-- The device's default input configuration. -/
structure DeviceConfig where
  sample_rate : ℕ
  channels : ℕ
  sample_format : SampleFormat
deriving DecidableEq, Repr

/-- Record `RecordingState` (src/audio.rs lines 33-38), with the atomics and the
locked buffer flattened into a record. -/
structure RecordingState where
  is_recording : Bool
  samples : List ℤ
  actual_sample_rate : ℕ
  actual_channels : ℕ
deriving DecidableEq, Repr

/-- Constructor `RecordingState::new` (src/audio.rs lines 41-48). -/
def RecordingState.new : RecordingState :=
  ⟨false, [], 16000, 1⟩

/-- Function `start_recording` (src/audio.rs lines 69-115): fail fast when already
recording, clear the buffer, resolve the device, store its native rate and
channel count, and start a stream for a supported format. -/
def start_recording (state : RecordingState) (device : Option DeviceConfig) :
    Except AudioError Unit × RecordingState :=
  if state.is_recording then
    (Except.error AudioError.alreadyRecording, state)
  else
    let st1 := { state with samples := [] }
    match device with
    | none => (Except.error AudioError.noInputDevice, st1)
    | some cfg =>
        let st2 := { st1 with actual_sample_rate := cfg.sample_rate,
                              actual_channels := cfg.channels }
        match cfg.sample_format with
        | SampleFormat.i16 => (Except.ok (), { st2 with is_recording := true })
        | SampleFormat.f32 => (Except.ok (), { st2 with is_recording := true })
        | SampleFormat.other d =>
            (Except.error (AudioError.configError ("Unsupported format: " ++ d)), st2)

/-- Function `stop_recording` (src/audio.rs lines 187-210): fail when not
recording, clear the recording flag, then fail on an empty buffer or
encode the captured samples at the stored native rate. -/
def stop_recording (state : RecordingState) :
    Except AudioError (List ℕ) × RecordingState :=
  if !state.is_recording then
    (Except.error AudioError.notRecording, state)
  else
    let st1 := { state with is_recording := false }
    if state.samples.isEmpty then
      (Except.error (AudioError.encodingError "No audio captured"), st1)
    else
      (Except.ok (encode_wav state.samples state.actual_sample_rate), st1)

/-- C6: `start_recording` while the recording flag is set returns
`AlreadyRecording` and leaves the state untouched — the buffer is not
cleared and the flag, stored sample rate and stored channel count keep
their previous values. -/
theorem start_recording_already_untouched (state : RecordingState)
    (device : Option DeviceConfig) (h : state.is_recording = true) :
    start_recording state device = (Except.error AudioError.alreadyRecording, state)
    ∧ (start_recording state device).2.samples = state.samples
    ∧ (start_recording state device).2.is_recording = true
    ∧ (start_recording state device).2.actual_sample_rate = state.actual_sample_rate
    ∧ (start_recording state device).2.actual_channels = state.actual_channels := by
  simp [start_recording, h]

/-- Witness for C6 on a mid-session state. -/
theorem start_recording_already_untouched_witness :
    start_recording ⟨true, [3, 4], 44100, 2⟩ none
        = (Except.error AudioError.alreadyRecording, ⟨true, [3, 4], 44100, 2⟩)
    ∧ (start_recording ⟨true, [3, 4], 44100, 2⟩ none).2.samples = [3, 4]
    ∧ (start_recording ⟨true, [3, 4], 44100, 2⟩ none).2.is_recording = true
    ∧ (start_recording ⟨true, [3, 4], 44100, 2⟩ none).2.actual_sample_rate = 44100
    ∧ (start_recording ⟨true, [3, 4], 44100, 2⟩ none).2.actual_channels = 2 :=
  start_recording_already_untouched ⟨true, [3, 4], 44100, 2⟩ none rfl

/-- C7: `stop_recording` returns `NotRecording` exactly when the recording
flag is not set; when the flag is set and the buffer is empty it returns
`EncodingError "No audio captured"` instead of WAV bytes. -/
theorem stop_recording_error_taxonomy (state : RecordingState) :
    ((stop_recording state).1 = Except.error AudioError.notRecording
      ↔ state.is_recording = false)
    ∧ (state.is_recording = true → state.samples = [] →
        (stop_recording state).1
          = Except.error (AudioError.encodingError "No audio captured")) := by
  constructor
  · constructor
    · intro h
      cases hrec : state.is_recording with
      | false => rfl
      | true =>
          exfalso
          by_cases he : state.samples.isEmpty <;>
            simp [stop_recording, hrec, he] at h
    · intro h
      simp [stop_recording, h]
  · intro h1 h2
    simp [stop_recording, h1, h2]

/-- Witness for C7: an idle stop and an empty-buffer stop. -/
theorem stop_recording_error_taxonomy_witness :
    (stop_recording ⟨false, [7], 16000, 1⟩).1 = Except.error AudioError.notRecording
    ∧ (stop_recording ⟨true, [], 44100, 2⟩).1
        = Except.error (AudioError.encodingError "No audio captured") :=
  ⟨(stop_recording_error_taxonomy ⟨false, [7], 16000, 1⟩).1.mpr rfl,
    (stop_recording_error_taxonomy ⟨true, [], 44100, 2⟩).2 rfl rfl⟩

/-- C10: `stop_recording` on a recording state with an empty buffer clears
the recording flag before returning `EncodingError "No audio captured"`, so
an immediately following `start_recording` on the resulting state never
fails with `AlreadyRecording`. -/
theorem stop_recording_empty_clears_flag (state : RecordingState)
    (device : Option DeviceConfig)
    (h1 : state.is_recording = true) (h2 : state.samples = []) :
    (stop_recording state).1
        = Except.error (AudioError.encodingError "No audio captured")
    ∧ (stop_recording state).2.is_recording = false
    ∧ (start_recording (stop_recording state).2 device).1
        ≠ Except.error AudioError.alreadyRecording := by
  refine ⟨?_, ?_, ?_⟩
  · simp [stop_recording, h1, h2]
  · simp [stop_recording, h1, h2]
  · simp only [stop_recording, h1, h2]
    rcases device with _ | ⟨r, c, fmt⟩
    · simp [start_recording]
    · rcases fmt <;> simp [start_recording]

/-- Witness for C10 on an empty-buffer recording state and an f32
device. -/
theorem stop_recording_empty_clears_flag_witness :
    (stop_recording ⟨true, [], 48000, 2⟩).1
        = Except.error (AudioError.encodingError "No audio captured")
    ∧ (stop_recording ⟨true, [], 48000, 2⟩).2.is_recording = false
    ∧ (start_recording (stop_recording ⟨true, [], 48000, 2⟩).2
          (some ⟨44100, 2, SampleFormat.f32⟩)).1
        ≠ Except.error AudioError.alreadyRecording :=
  stop_recording_empty_clears_flag ⟨true, [], 48000, 2⟩
    (some ⟨44100, 2, SampleFormat.f32⟩) rfl rfl

/-!
## Coordinator (src/app.rs `AppState`, `AppMessage`,
`VoxMagicApp::process_messages`)

`process_messages` drains the channel and updates `state`, `history` and
`status_message`; the only other effect is the paste boundary action, which
we record as an optional pasted string.
-/

/-- The UI state machine `AppState` (src/app.rs lines 31-37). -/
inductive AppState where
  | ready
  | listening
  | transcribing
  | pasting
deriving DecidableEq, Repr

/-- Channel message type `AppMessage` (src/app.rs lines 25-29). -/
inductive AppMessage where
  | transcriptionStart
  | transcriptionComplete (text : String)
  | transcriptionError (error : String)

/-- The Coordinator fields read and written by `process_messages`. -/
structure CoordState where
  state : AppState
  history : List String
  status_message : String
deriving DecidableEq, Repr

/-- Rust `char::is_whitespace`: the Unicode White_Space property —
U+0009..U+000D, U+0020, U+0085 (NEL), U+00A0 (no-break space), U+1680
(ogham space mark), U+2000..U+200A, U+2028 (line separator), U+2029
(paragraph separator), U+202F (narrow no-break space), U+205F (medium
mathematical space), U+3000 (ideographic space). -/
def rustIsWhitespace (c : Char) : Bool :=
  let n := c.toNat
  (decide (0x09 ≤ n) && decide (n ≤ 0x0D)) || n == 0x20 || n == 0x85
    || n == 0xA0 || n == 0x1680
    || (decide (0x2000 ≤ n) && decide (n ≤ 0x200A))
    || n == 0x2028 || n == 0x2029 || n == 0x202F || n == 0x205F || n == 0x3000

/-- Rust `str::trim`: drop Unicode White_Space characters from both ends.
Embedded structurally over the character list (Lean's `String.trim` is
defined by well-founded recursion on byte positions, which blocks kernel
evaluation, and trims only ASCII whitespace). -/
def rust_trim (text : String) : String :=
  String.mk
    (((text.data.dropWhile rustIsWhitespace).reverse.dropWhile
        rustIsWhitespace).reverse)

/-- Handling of a single received message (the body of the
`while let Ok(msg)` loop in `process_messages`, src/app.rs lines 212-237),
given the `auto_paste` setting.  Returns the updated Coordinator fields and
the text handed to the paste boundary action, if any. -/
def process_message (auto_paste : Bool) (s : CoordState) (msg : AppMessage) :
    CoordState × Option String :=
  match msg with
  | AppMessage.transcriptionStart =>
      ({ s with state := AppState.transcribing }, none)
  | AppMessage.transcriptionComplete text =>
      let cleaned := rust_trim text
      if cleaned ≠ "" then
        let h1 := cleaned :: s.history
        let h2 := if h1.length > 10 then h1.dropLast else h1
        ({ state := AppState.ready, history := h2, status_message := "Success" },
          if auto_paste then some cleaned else none)
      else
        ({ s with state := AppState.ready,
                  status_message := "No speech detected" }, none)
  | AppMessage.transcriptionError error =>
      ({ s with state := AppState.ready,
                status_message := "Error: " ++ error }, none)

/-- Draining a whole message queue (the `while let` loop), tracking only
the Coordinator fields. -/
def process_messages (auto_paste : Bool) (s : CoordState) (msgs : List AppMessage) :
    CoordState :=
  msgs.foldl (fun acc m => (process_message auto_paste acc m).1) s

theorem process_message_complete_nonempty (auto_paste : Bool) (s : CoordState)
    (text : String) (h : rust_trim text ≠ "") :
    (process_message auto_paste s (AppMessage.transcriptionComplete text)).1
      = { state := AppState.ready,
          history :=
            if (rust_trim text :: s.history).length > 10
            then (rust_trim text :: s.history).dropLast
            else rust_trim text :: s.history,
          status_message := "Success" } := by
  simp [process_message, h]

theorem history_step_le (x : String) (h : List String) (hle : h.length ≤ 10) :
    (if (x :: h).length > 10 then (x :: h).dropLast else x :: h).length ≤ 10 := by
  by_cases hc : (x :: h).length > 10
  · rw [if_pos hc, List.length_dropLast]
    simp only [List.length_cons]
    omega
  · rw [if_neg hc]
    simp only [List.length_cons, gt_iff_lt, not_lt] at hc
    simp only [List.length_cons]
    omega

theorem process_message_history_le (auto_paste : Bool) (s : CoordState)
    (msg : AppMessage) (hle : s.history.length ≤ 10) :
    (process_message auto_paste s msg).1.history.length ≤ 10 := by
  rcases msg with _ | text | error
  · simpa [process_message] using hle
  · by_cases h : rust_trim text = ""
    · simpa [process_message, h] using hle
    · rw [process_message_complete_nonempty auto_paste s text h]
      exact history_step_le (rust_trim text) s.history hle
  · simpa [process_message] using hle

theorem process_messages_history_le (auto_paste : Bool) (msgs : List AppMessage) :
    ∀ s : CoordState, s.history.length ≤ 10 →
      (process_messages auto_paste s msgs).history.length ≤ 10 := by
  induction msgs with
  | nil => intro s hs; simpa [process_messages] using hs
  | cons m rest ih =>
      intro s hs
      have h1 := process_message_history_le auto_paste s m hs
      simpa [process_messages] using ih _ h1

/-- C5: on a `TranscriptionComplete` whose text trims to a non-empty
string, the Coordinator prepends the trimmed text to the history
(most-recent-first) and evicts the oldest entry when the length would
exceed 10 (so a history of at most 10 entries stays at most 10, and after
draining any message queue from a state within the bound the history still
holds at most 10 entries); on a `TranscriptionComplete` whose text trims to
the empty string, the history is unchanged, the status becomes
"No speech detected", and the state returns to `Ready`. -/
theorem coordinator_complete_history (auto_paste : Bool) (s : CoordState)
    (text : String) (msgs : List AppMessage) (hle : s.history.length ≤ 10) :
    (rust_trim text ≠ "" →
      (process_message auto_paste s (AppMessage.transcriptionComplete text)).1.history
          = (rust_trim text :: s.history).take 10
      ∧ (process_message auto_paste s
            (AppMessage.transcriptionComplete text)).1.history.length ≤ 10
      ∧ (process_message auto_paste s
            (AppMessage.transcriptionComplete text)).1.state = AppState.ready)
    ∧ (rust_trim text = "" →
      (process_message auto_paste s (AppMessage.transcriptionComplete text)).1
          = { s with state := AppState.ready,
                     status_message := "No speech detected" })
    ∧ (process_messages auto_paste s msgs).history.length ≤ 10 := by
  refine ⟨?_, ?_, process_messages_history_le auto_paste msgs s hle⟩
  · intro h
    rw [process_message_complete_nonempty auto_paste s text h]
    refine ⟨?_, ?_, rfl⟩
    · by_cases hc : (rust_trim text :: s.history).length > 10
      · rw [if_pos hc]
        have hlen : (rust_trim text :: s.history).length = 11 := by
          simp only [List.length_cons] at hc ⊢
          omega
        rw [List.dropLast_eq_take, hlen]
      · rw [if_neg hc]
        simp only [List.length_cons, gt_iff_lt, not_lt] at hc
        rw [List.take_of_length_le (by simp only [List.length_cons]; omega)]
    · exact history_step_le (rust_trim text) s.history hle
  · intro h
    simp [process_message, h]

/-- Witness for C5: end-to-end scenarios B (`"  hello world  "`) and C
(whitespace-only text, both ASCII spaces and a Unicode no-break space
U+00A0, which Rust `str::trim` also strips). -/
theorem coordinator_complete_history_witness :
    ((process_message true ⟨AppState.transcribing, ["a"], "Refining..."⟩
        (AppMessage.transcriptionComplete "  hello world  ")).1.history
      = (rust_trim "  hello world  " :: ["a"]).take 10)
    ∧ (process_message false ⟨AppState.transcribing, ["a"], "s"⟩
        (AppMessage.transcriptionComplete "   ")).1
      = { state := AppState.ready, history := ["a"],
          status_message := "No speech detected" }
    ∧ (process_message false ⟨AppState.transcribing, ["a"], "s"⟩
        (AppMessage.transcriptionComplete "\u00A0")).1
      = { state := AppState.ready, history := ["a"],
          status_message := "No speech detected" } :=
  ⟨((coordinator_complete_history true ⟨AppState.transcribing, ["a"], "Refining..."⟩
      "  hello world  " [] (by decide)).1 (by decide)).1,
    (coordinator_complete_history false ⟨AppState.transcribing, ["a"], "s"⟩
      "   " [] (by decide)).2.1 (by decide),
    (coordinator_complete_history false ⟨AppState.transcribing, ["a"], "s"⟩
      "\u00A0" [] (by decide)).2.1 (by decide)⟩

/-- C9: on every `TranscriptionError` message (whatever stage produced the
error string), the Coordinator sets the status to a user-visible string
carrying the error description ("Error: " followed by it), leaves the
history unchanged, pastes nothing, and returns the state to `Ready`, so
the next session can proceed. -/
theorem coordinator_error_recovery (auto_paste : Bool) (s : CoordState) (e : String) :
    (process_message auto_paste s (AppMessage.transcriptionError e)).1.status_message
        = "Error: " ++ e
    ∧ (process_message auto_paste s (AppMessage.transcriptionError e)).1.history
        = s.history
    ∧ (process_message auto_paste s (AppMessage.transcriptionError e)).1.state
        = AppState.ready
    ∧ (process_message auto_paste s (AppMessage.transcriptionError e)).2 = none :=
  ⟨rfl, rfl, rfl, rfl⟩

/-!
## Audio callbacks (src/audio.rs `build_stream_i16`, `build_stream_f32`)

Each delivered block runs the callback once; we embed the callback body as
a function from the shared buffer contents and the block to the new buffer
contents.  `chunks_exact(channels)` yields the complete frames and drops a
trailing incomplete frame.
-/

/-- Rust `chunks_exact`: the list cut into consecutive chunks of size `c`,
dropping the incomplete remainder. -/
def chunksExact {α : Type} (c : ℕ) (l : List α) : List (List α) :=
  if h : c = 0 ∨ l.length < c then [] else l.take c :: chunksExact c (l.drop c)
termination_by l.length
decreasing_by
  push_neg at h
  simp only [List.length_drop]
  omega

theorem chunksExact_length {α : Type} (c : ℕ) (hc : 0 < c) :
    ∀ n, ∀ l : List α, l.length ≤ n → (chunksExact c l).length = l.length / c := by
  intro n
  induction n with
  | zero =>
      intro l hl
      have : l.length = 0 := by omega
      rw [chunksExact, dif_pos (by omega)]
      simp [Nat.div_eq_of_lt, this]
  | succ n ih =>
      intro l hl
      by_cases h : c = 0 ∨ l.length < c
      · rw [chunksExact, dif_pos h]
        have : l.length < c := by omega
        simp [Nat.div_eq_of_lt this]
      · rw [chunksExact, dif_neg h]
        push_neg at h
        have hdl : (l.drop c).length ≤ n := by
          simp only [List.length_drop]
          omega
        simp only [List.length_cons, ih (l.drop c) hdl, List.length_drop]
        rw [Nat.div_eq_sub_div hc h.2]

theorem chunksExact_getD {α : Type} (c : ℕ) (hc : 0 < c) :
    ∀ n, ∀ l : List α, ∀ i, l.length ≤ n → i < l.length / c →
      (chunksExact c l).getD i [] = (l.drop (i * c)).take c := by
  intro n
  induction n with
  | zero =>
      intro l i hl hi
      rw [Nat.div_eq_of_lt (by omega)] at hi
      omega
  | succ n ih =>
      intro l i hl hi
      have hcl : ¬ (c = 0 ∨ l.length < c) := by
        by_contra h
        rcases h with h | h
        · omega
        · rw [Nat.div_eq_of_lt h] at hi
          omega
      rw [chunksExact, dif_neg hcl]
      push_neg at hcl
      cases i with
      | zero => simp
      | succ j =>
          have hdl : (l.drop c).length ≤ n := by
            simp only [List.length_drop]
            omega
          have hj : j < (l.drop c).length / c := by
            simp only [List.length_drop]
            rw [Nat.div_eq_sub_div hc hcl.2] at hi
            omega
          simp only [List.getD_cons_succ]
          rw [ih (l.drop c) j hdl hj, List.drop_drop]
          congr 2
          ring

/-- Rust `i32` division truncates toward zero, so the integer average of a
frame stays within the `i16` bounds of its entries. -/
theorem tdiv_avg_range (s : ℤ) (c : ℕ) (hc : 0 < c)
    (h1 : -32768 * c ≤ s) (h2 : s ≤ 32767 * c) :
    -32768 ≤ s.tdiv c ∧ s.tdiv c ≤ 32767 := by
  have hcz : (0 : ℤ) < (c : ℤ) := by exact_mod_cast hc
  rcases le_or_lt 0 s with hs | hs
  · have hd : s.tdiv c = s / c := Int.tdiv_eq_ediv hs (by positivity)
    constructor
    · have : (0 : ℤ) ≤ s / c := Int.ediv_nonneg hs (by positivity)
      omega
    · rw [hd]
      have hm := Int.ediv_le_ediv hcz h2
      rwa [Int.mul_ediv_cancel _ (by omega : (c : ℤ) ≠ 0)] at hm
  · have hneg : s.tdiv c = -((-s).tdiv c) := by
      rw [← Int.neg_tdiv, neg_neg]
    have hnn : (0 : ℤ) ≤ -s := by omega
    have hd : (-s).tdiv c = (-s) / c := Int.tdiv_eq_ediv hnn (by positivity)
    have hb : (-s) / c ≤ 32768 := by
      have hm := Int.ediv_le_ediv hcz (show -s ≤ 32768 * c by omega)
      rwa [Int.mul_ediv_cancel _ (by omega : (c : ℤ) ≠ 0)] at hm
    have hnn2 : (0 : ℤ) ≤ (-s) / c := Int.ediv_nonneg hnn (by positivity)
    omega

theorem sum_range_bounds (l : List ℤ) (hb : ∀ x ∈ l, -32768 ≤ x ∧ x ≤ 32767) :
    -32768 * l.length ≤ l.sum ∧ l.sum ≤ 32767 * l.length := by
  induction l with
  | nil => simp
  | cons x xs ih =>
      have hx := hb x (by simp)
      have hxs := ih (fun y hy => hb y (by simp [hy]))
      simp only [List.sum_cons, List.length_cons]
      push_cast
      omega

theorem getD_append_right {α : Type} (l m : List α) (i : ℕ) (d : α) :
    (l ++ m).getD (l.length + i) d = m.getD i d := by
  induction l with
  | nil => simp
  | cons x xs ih =>
      simp only [List.cons_append, List.length_cons]
      rw [show xs.length + 1 + i = (xs.length + i) + 1 from by ring]
      rw [List.getD_cons_succ]
      exact ih

theorem getD_map_lt {α β : Type} (f : α → β) (m : List α) (i : ℕ) (d : β) (e : α)
    (h : i < m.length) : (m.map f).getD i d = f (m.getD i e) := by
  induction m generalizing i with
  | nil => simp at h
  | cons x xs ih =>
      cases i with
      | zero => simp
      | succ j =>
          simp only [List.map_cons, List.getD_cons_succ]
          exact ih j (by simpa using h)

theorem frame_take_length {α : Type} (data : List α) (c i : ℕ) (hc : 0 < c)
    (hi : i < data.length / c) :
    ((data.drop (i * c)).take c).length = c := by
  have h1 : (i + 1) * c ≤ data.length / c * c :=
    Nat.mul_le_mul_right c (by omega)
  have h3 : i * c + c ≤ data.length := by
    calc i * c + c = (i + 1) * c := by ring
    _ ≤ data.length / c * c := h1
    _ ≤ data.length := Nat.div_mul_le_self _ _
  simp only [List.length_take, List.length_drop]
  omega

/-- The `i16` input callback body (src/audio.rs lines 129-141): when the
recording flag is set, every complete `channels`-sized frame is summed as
`i32`, divided by the channel count (Rust `/` on `i32` truncates toward
zero), cast `as i16`, and appended to the buffer. -/
def build_stream_i16_callback (is_recording : Bool) (samples : List ℤ)
    (data : List ℤ) (channels : ℕ) : List ℤ :=
  if is_recording then
    samples ++ (chunksExact channels data).map
      (fun frame => wrapI16 (Int.tdiv frame.sum (channels : ℤ)))
  else samples

/-- The `f32` input callback body (src/audio.rs lines 163-176): when the
recording flag is set, every complete frame is averaged as a float, scaled
by 32767, clamped to `[-32768, 32767]`, cast `as i16` (truncation toward
zero), and appended to the buffer.  Float arithmetic is modelled as exact
rational arithmetic. -/
def build_stream_f32_callback (is_recording : Bool) (samples : List ℤ)
    (data : List ℚ) (channels : ℕ) : List ℤ :=
  if is_recording then
    samples ++ (chunksExact channels data).map
      (fun frame => truncQ (clampQ ((frame.sum / (channels : ℚ)) * 32767)))
  else samples

/-- C8: while the recording flag is set, one invocation of the audio
callback appends exactly one mono sample per complete input frame
(`⌊data.length / channels⌋` of them): for 16-bit integer input, the
appended sample at frame `i` is the truncated integer average of the
frame's channel values (and the `as i16` cast never wraps); for 32-bit
float input it is the float average of the frame, scaled to the 16-bit
range, clamped, and truncated toward zero. -/
theorem audio_callback_mixdown (channels : ℕ) (samples dataI : List ℤ)
    (dataF : List ℚ) (hc : 0 < channels)
    (hrange : ∀ x ∈ dataI, -32768 ≤ x ∧ x ≤ 32767) :
    (build_stream_i16_callback true samples dataI channels).length
        = samples.length + dataI.length / channels
    ∧ (∀ i, i < dataI.length / channels →
        (build_stream_i16_callback true samples dataI channels).getD
            (samples.length + i) 0
          = Int.tdiv ((dataI.drop (i * channels)).take channels).sum channels)
    ∧ (build_stream_f32_callback true samples dataF channels).length
        = samples.length + dataF.length / channels
    ∧ (∀ i, i < dataF.length / channels →
        (build_stream_f32_callback true samples dataF channels).getD
            (samples.length + i) 0
          = truncQ (clampQ ((((dataF.drop (i * channels)).take channels).sum
              / (channels : ℚ)) * 32767))) := by
  have hchlI : (chunksExact channels dataI).length = dataI.length / channels :=
    chunksExact_length channels hc dataI.length dataI le_rfl
  have hchlF : (chunksExact channels dataF).length = dataF.length / channels :=
    chunksExact_length channels hc dataF.length dataF le_rfl
  refine ⟨?_, ?_, ?_, ?_⟩
  · simp [build_stream_i16_callback, hchlI]
  · intro i hi
    unfold build_stream_i16_callback
    rw [if_pos rfl, getD_append_right,
      getD_map_lt _ _ _ _ [] (by rw [hchlI]; exact hi),
      chunksExact_getD channels hc dataI.length dataI i le_rfl hi]
    have hflen := frame_take_length dataI channels i hc hi
    have hfb : ∀ x ∈ (dataI.drop (i * channels)).take channels,
        -32768 ≤ x ∧ x ≤ 32767 := by
      intro x hx
      exact hrange x (List.mem_of_mem_drop (List.mem_of_mem_take hx))
    have hsum := sum_range_bounds _ hfb
    rw [hflen] at hsum
    have hr := tdiv_avg_range _ channels hc (by exact_mod_cast hsum.1)
      (by exact_mod_cast hsum.2)
    unfold wrapI16
    omega
  · simp [build_stream_f32_callback, hchlF]
  · intro i hi
    unfold build_stream_f32_callback
    rw [if_pos rfl, getD_append_right,
      getD_map_lt _ _ _ _ [] (by rw [hchlF]; exact hi),
      chunksExact_getD channels hc dataF.length dataF i le_rfl hi]

/-- Witness for C8 on a 2-channel block with a dropped trailing sample. -/
theorem audio_callback_mixdown_witness :
    (build_stream_i16_callback true [5] [1, 3, -7, 2, 9] 2).length = 1 + 5 / 2
    ∧ (build_stream_i16_callback true [5] [1, 3, -7, 2, 9] 2).getD (1 + 1) 0
        = Int.tdiv (([1, 3, -7, 2, 9].drop (1 * 2)).take 2).sum 2
    ∧ (build_stream_f32_callback true [5] [1/2, 1/4] 2).length = 1 + 2 / 2
    ∧ (build_stream_f32_callback true [5] [1/2, 1/4] 2).getD (1 + 0) 0
        = truncQ (clampQ (((([1/2, 1/4] : List ℚ).drop (0 * 2)).take 2).sum
            / (2 : ℚ) * 32767)) := by
  have h := audio_callback_mixdown 2 [5] [1, 3, -7, 2, 9] [1/2, 1/4]
    (by decide) (by decide)
  exact ⟨h.1, h.2.1 1 (by decide), h.2.2.1, h.2.2.2 0 (by decide)⟩
